import Mathlib

/-!
Verification of the counter runtime (`src/examples/counter/src/runtime.rs`):
a proof-of-work sealed block format and a state-transition function folding
`Add` operations into a single stored counter.

Bytes are modelled as `List Nat` with every element `< 256`; machine
integers are `Nat` with explicit `% 2 ^ w` wherever the source wraps.
-/

namespace CounterRuntime

abbrev Bytes := List Nat

/-- Little-endian load of a byte list into a natural number. -/
def leLoad (bs : Bytes) : Nat := bs.foldr (fun b acc => acc * 256 + b) 0

/-- Little-endian store of `n` into `k` bytes (truncating to `n % 256 ^ k`). -/
def leStore (n : Nat) : Nat → Bytes
  | 0 => []
  | k + 1 => (n % 256) :: leStore (n / 256) k

/-! ## SHA3-256 (the `sha3` crate's `Sha3_256`), modelled from FIPS 202.

Lanes are 64-bit words represented as `Nat` values `< 2 ^ 64`; the state is a
flat list of 25 lanes, lane `(x, y)` at index `x + 5 * y`. -/

/-- 64-bit left rotation. -/
def rotl64 (x n : Nat) : Nat :=
  ((x <<< (n % 64)) ||| (x >>> (64 - n % 64))) % 2 ^ 64

/-- Lane lookup in a flat Keccak state (default 0 out of range). -/
def lget (s : List Nat) (i : Nat) : Nat := s.getD i 0

/-- Keccak θ step. -/
def theta (s : List Nat) : List Nat :=
  let c := (List.range 5).map fun x =>
    lget s x ^^^ lget s (x + 5) ^^^ lget s (x + 10) ^^^ lget s (x + 15) ^^^ lget s (x + 20)
  let d := (List.range 5).map fun x =>
    lget c ((x + 4) % 5) ^^^ rotl64 (lget c ((x + 1) % 5)) 1
  (List.range 25).map fun i => lget s i ^^^ lget d (i % 5)

/-- Keccak ρ rotation offsets, flat index `x + 5 * y` (given here in hex). -/
def rhoOffsets : List Nat :=
  [0x0, 0x1, 0x3e, 0x1c, 0x1b,
   0x24, 0x2c, 0x6, 0x37, 0x14,
   0x3, 0xa, 0x2b, 0x19, 0x27,
   0x29, 0x2d, 0xf, 0x15, 0x8,
   0x12, 0x2, 0x3d, 0x38, 0xe]

/-- Keccak ρ and π steps combined: the lane at destination `(X, Y)` is the
lane at source `((X + 3Y) % 5, X)` rotated by its ρ offset. -/
def rhoPi (s : List Nat) : List Nat :=
  (List.range 25).map fun i =>
    let X := i % 5
    let Y := i / 5
    let src := (X + 3 * Y) % 5 + 5 * X
    rotl64 (lget s src) (lget rhoOffsets src)

/-- Keccak χ step. -/
def chi (s : List Nat) : List Nat :=
  (List.range 25).map fun i =>
    let x := i % 5
    let y := i / 5
    lget s i ^^^ ((lget s ((x + 1) % 5 + 5 * y) ^^^ (2 ^ 64 - 1)) &&& lget s ((x + 2) % 5 + 5 * y))

/-- Keccak ι round constants (given here in decimal). -/
def iotaRC : List Nat :=
  [1, 32898, 9223372036854808714,
   9223372039002292224, 32907, 2147483649,
   9223372039002292353, 9223372036854808585, 138,
   136, 2147516425, 2147483658,
   2147516555, 9223372036854775947, 9223372036854808713,
   9223372036854808579, 9223372036854808578, 9223372036854775936,
   32778, 9223372039002259466, 9223372039002292353,
   9223372036854808704, 2147483649, 9223372039002292232]

/-- One Keccak round: θ, ρ, π, χ, ι. -/
def keccakRound (rc : Nat) (s : List Nat) : List Nat :=
  let s := chi (rhoPi (theta s))
  ((lget s 0 ^^^ rc) :: s.drop 1)

/-- The Keccak-f[1600] permutation: 24 rounds. -/
def keccakF (s : List Nat) : List Nat :=
  iotaRC.foldl (fun st rc => keccakRound rc st) s

/-- SHA3 padding (pad10*1 with the SHA3 domain bits): rate 136 bytes. -/
def sha3pad (msg : Bytes) : Bytes :=
  let padlen := 136 - msg.length % 136
  if padlen == 1 then msg ++ [0x86]
  else msg ++ [0x06] ++ List.replicate (padlen - 2) 0 ++ [0x80]

/-- XOR one 136-byte block into the first 17 lanes of the state. -/
def absorbBlock (st : List Nat) (block : Bytes) : List Nat :=
  (List.range 25).map fun i =>
    if i < 17 then lget st i ^^^ leLoad ((block.drop (8 * i)).take 8)
    else lget st i

/-- SHA3-256 digest (32 bytes) of a byte sequence. -/
def sha3_256 (msg : Bytes) : Bytes :=
  let padded := sha3pad msg
  let nblocks := padded.length / 136
  let st := (List.range nblocks).foldl
    (fun st i => keccakF (absorbBlock st ((padded.drop (136 * i)).take 136)))
    (List.replicate 25 0)
  ((List.range 4).map fun i => leStore (lget st i) 8).flatten

/-! ## Data model (`runtime.rs`)

`H256` values are 32-byte lists; `u128` and `u64` values are `Nat` kept below
`2 ^ 128` / `2 ^ 64` by the operations that produce them. -/

/-- Source: `const DIFFICULTY: usize = 2`. -/
def DIFFICULTY : Nat := 2

/-- Source: `fn is_all_zero(arr: &[u8]) -> bool`, true when every byte is 0. -/
def is_all_zero (arr : Bytes) : Bool := arr.all fun i => i == 0

/-- Source: `enum Extrinsic`, one variant `Add(u128)`. -/
inductive Extrinsic where
  | Add (v : Nat)
deriving DecidableEq, Repr

/-- Source: `struct UnsealedBlock`, fields `parent_hash: Option<H256>` and `extrinsics: Vec<Extrinsic>`. -/
structure UnsealedBlock where
  parent_hash : Option Bytes
  extrinsics : List Extrinsic
deriving DecidableEq, Repr

/-- Source: `struct Block`, the fields of `UnsealedBlock` plus `nonce: u64`. -/
structure Block where
  parent_hash : Option Bytes
  extrinsics : List Extrinsic
  nonce : Nat
deriving DecidableEq, Repr

/-! ## SCALE encoding (the derived `Encode`/`Decode` from the `codec` crate),
modelled from the SCALE codec specification: `Option` is a 0/1 tag byte,
fixed-width integers are little-endian, `Vec` is a compact length prefix
followed by the items, an enum is its variant index byte followed by the
payload. -/

/-- SCALE compact encoding of an unsigned integer (used for `Vec` lengths). -/
def compactEncode (n : Nat) : Bytes :=
  if n < 2 ^ 6 then [n * 4]
  else if n < 2 ^ 14 then leStore (n * 4 + 1) 2
  else if n < 2 ^ 30 then leStore (n * 4 + 2) 4
  else
    let limbs := (Nat.log2 n + 8) / 8
    (0b11 + (limbs - 4) * 4) :: leStore n limbs

/-- SCALE encoding of one `Extrinsic`: variant byte `0` then the `u128` LE. -/
def Extrinsic.encode : Extrinsic → Bytes
  | .Add v => 0 :: leStore v 16

/-- SCALE encoding of a `Block`: `Option<H256>`, `Vec<Extrinsic>`, `u64`. -/
def Block.encode (b : Block) : Bytes :=
  (match b.parent_hash with
   | none => [0]
   | some h => 1 :: h)
  ++ compactEncode b.extrinsics.length
  ++ (b.extrinsics.map Extrinsic.encode).flatten
  ++ leStore b.nonce 8

/-- Source: `Block::id`, the SHA3-256 digest of the SCALE-encoded block. -/
def Block.id (b : Block) : Bytes := sha3_256 b.encode

/-- Source: `Block::genesis()` — no parent, no extrinsics, nonce 0. -/
def Block.genesis : Block :=
  { parent_hash := none, extrinsics := [], nonce := 0 }

/-- Decoding a `u128` from a byte slice (`u128::decode`): reads exactly 16
little-endian bytes from the front, failing when fewer are available. -/
def decodeU128 (bs : Bytes) : Option Nat :=
  if bs.length < 16 then none else some (leLoad (bs.take 16))

/-- Wrapping `u128` addition (the overflow policy chosen for `counter += add`). -/
def addU128 (a b : Nat) : Nat := (a + b) % 2 ^ 128

/-! ## The abstract store

Modelled from the spec: the `StorageExternalities` trait is an external
collaborator missing from `src/`; per §3 of the spec it exposes
`read(key) -> optional byte-sequence, fallible` and
`write(key, byte-sequence) -> ()`. Stored data is an association list; a
read may instead report a backend failure (`readFails`); an event log
records every store interaction so that frame properties can be stated. -/

inductive StoreEvent where
  | read (key : Bytes)
  | write (key value : Bytes)
deriving DecidableEq, Repr

/-- Association-list lookup (first match). -/
def lookupAssoc (key : Bytes) : List (Bytes × Bytes) → Option Bytes
  | [] => none
  | (k, v) :: rest => if k = key then some v else lookupAssoc key rest

/-- Association-list update (replace first match, else append). -/
def insertAssoc (key value : Bytes) : List (Bytes × Bytes) → List (Bytes × Bytes)
  | [] => [(key, value)]
  | (k, v) :: rest =>
    if k = key then (key, value) :: rest else (k, v) :: insertAssoc key value rest

/-- Modelled from the spec: the state behind the injected abstract key-value
interface (`dyn StorageExternalities`), plus an event log. -/
structure Ext where
  data : List (Bytes × Bytes)
  readFails : Bytes → Option String
  log : List StoreEvent

/-- Modelled from the spec: `read_storage(key) -> Result<Option<Vec<u8>>, _>`,
a fallible read. The attempt is logged; on failure the underlying cause is
reported to the caller. -/
def Ext.read_storage (s : Ext) (key : Bytes) : Except String (Option Bytes) × Ext :=
  let s' := { s with log := s.log ++ [.read key] }
  match s.readFails key with
  | some e => (.error e, s')
  | none => (.ok (lookupAssoc key s.data), s')

/-- Modelled from the spec: `write_storage(key, value) -> ()`, infallible. -/
def Ext.write_storage (s : Ext) (key value : Bytes) : Ext :=
  { s with data := insertAssoc key value s.data, log := s.log ++ [.write key value] }

/-! ## Errors and the Executor -/

/-- Source: `enum Error` with variants `Backend(Box<dyn error::Error>)`,
`DifficultyTooLow` and `StateCorruption`;
the boxed cause is modelled as a `String`. -/
inductive Error where
  | Backend (e : String)
  | DifficultyTooLow
  | StateCorruption
deriving DecidableEq, Repr

/-- The fixed store key, the bytes of `b"counter"`. -/
def counterKey : Bytes := [99, 111, 117, 110, 116, 101, 114]

/-- Source: `Executor::read_counter` — read the counter key; absence is 0; a present
value that fails to decode as `u128` is `StateCorruption`; a backend read
failure is wrapped as `Backend`. -/
def read_counter (s : Ext) : Except Error Nat × Ext :=
  match s.read_storage counterKey with
  | (.error e, s') => (.error (.Backend e), s')
  | (.ok (some bs), s') =>
    match decodeU128 bs with
    | some v => (.ok v, s')
    | none => (.error .StateCorruption, s')
  | (.ok none, s') => (.ok 0, s')

/-- Source: `Executor::write_counter` — write the encoded counter under the key. -/
def write_counter (counter : Nat) (s : Ext) : Ext :=
  s.write_storage counterKey (leStore counter 16)

/-- Source: `Executor::execute_block` — difficulty check, read, fold, write. -/
def execute_block (block : Block) (s : Ext) : Except Error Unit × Ext :=
  if ¬ is_all_zero (block.id.take DIFFICULTY) then (.error .DifficultyTooLow, s)
  else
    match read_counter s with
    | (.error e, s') => (.error e, s')
    | (.ok counter, s') =>
      let counter := block.extrinsics.foldl
        (fun acc ex => match ex with | .Add add => addU128 acc add) counter
      (.ok (), write_counter counter s')

/-- Source: `Executor::apply_extrinsic` — read, apply one operation, write; the
building block is passed `&mut` but never touched by the body. -/
def apply_extrinsic (block : UnsealedBlock) (extrinsic : Extrinsic) (s : Ext) :
    Except Error Unit × UnsealedBlock × Ext :=
  match read_counter s with
  | (.error e, s') => (.error e, block, s')
  | (.ok counter, s') =>
    let counter := match extrinsic with | .Add add => addU128 counter add
    (.ok (), block, write_counter counter s')

/-- Source: `Executor::initialize_block` — a fresh `UnsealedBlock` on top of `block`. -/
def initialize_block (block : Block) (s : Ext) : (Except Error UnsealedBlock) × Ext :=
  (.ok { parent_hash := some block.id, extrinsics := [] }, s)

/-- Source: `Executor::finalize_block` — a no-op. -/
def finalize_block (block : UnsealedBlock) (s : Ext) :
    Except Error Unit × UnsealedBlock × Ext :=
  (.ok (), block, s)

/-! ## Sealing -/

/-- The candidate block `seal` tests at a given nonce. -/
def candidate (b : UnsealedBlock) (nonce : Nat) : Block :=
  { parent_hash := b.parent_hash, extrinsics := b.extrinsics, nonce := nonce }

/-- The loop guard of `seal`, met when the candidate's identity hash has its
first `DIFFICULTY` bytes zero. -/
def sealDone (b : UnsealedBlock) (nonce : Nat) : Prop :=
  is_all_zero ((candidate b nonce).id.take DIFFICULTY) = true

instance (b : UnsealedBlock) (nonce : Nat) : Decidable (sealDone b nonce) := by
  unfold sealDone; infer_instance

/-- Source: `UnsealedBlock::seal` — the loop `nonce = 0; while !is_all_zero(..) { nonce += 1 }`
computes the least nonce meeting the difficulty condition; it terminates
exactly when some nonce meets it, which the argument `h` supplies. -/
def UnsealedBlock.seal (b : UnsealedBlock) (h : ∃ n, sealDone b n) : Block :=
  candidate b (Nat.find h)

/-! ## Concrete inputs

Concrete parent hashes chosen so that the resulting blocks meet the
difficulty target at nonce 0 (checked below by kernel evaluation of
`sha3_256`). -/

/-- A parent hash making the empty-extrinsics child valid at nonce 0. -/
def parentA : Bytes := 185 :: 133 :: List.replicate 30 0

/-- An unsealed block whose minimal valid nonce is 0. -/
def unsealedA : UnsealedBlock := { parent_hash := some parentA, extrinsics := [] }

/-- A parent hash making the `[Add 3, Add 5]` child valid at nonce 0. -/
def parentB : Bytes := 21 :: 24 :: 1 :: List.replicate 29 0

/-- A sealed block carrying `[Add 3, Add 5]` that meets the difficulty target. -/
def blockB : Block := { parent_hash := some parentB, extrinsics := [.Add 3, .Add 5], nonce := 0 }

/-- The empty store with no backend failures. -/
def extEmpty : Ext := { data := [], readFails := fun _ => none, log := [] }

/-- A store whose counter entry does not decode as a `u128` (too short). -/
def corruptExt : Ext := { extEmpty with data := [(counterKey, [1, 2, 3])] }

/-- A store whose backend fails every read of the counter key. -/
def failExt : Ext :=
  { extEmpty with readFails := fun k => if k = counterKey then some "backend failure" else none }

set_option maxRecDepth 100000 in
/-- The genesis block's identity hash does not begin with two zero bytes. -/
lemma powGenesis : is_all_zero (Block.genesis.id.take DIFFICULTY) = false := by decide

set_option maxRecDepth 100000 in
/-- The block `unsealedA` meets the difficulty target already at nonce 0. -/
lemma sealDoneA : sealDone unsealedA 0 := by unfold sealDone; decide

set_option maxRecDepth 100000 in
/-- The block `blockB` meets the difficulty target. -/
lemma powB : is_all_zero (blockB.id.take DIFFICULTY) = true := by decide

/-! ## Byte-codec lemmas -/

lemma leStore_length (k : Nat) : ∀ n, (leStore n k).length = k := by
  induction k with
  | zero => intro n; rfl
  | succ k ih => intro n; simp [leStore, ih]

lemma leLoad_leStore (k : Nat) : ∀ n, leLoad (leStore n k) = n % 256 ^ k := by
  induction k with
  | zero => intro n; simp [leStore, leLoad, Nat.mod_one]
  | succ k ih =>
    intro n
    have h1 : leLoad (leStore n (k + 1)) = leLoad (leStore (n / 256) k) * 256 + n % 256 := rfl
    rw [h1, ih, pow_succ, mul_comm (256 ^ k) 256, Nat.mod_mul]
    omega

lemma leStore_mod (k : Nat) : ∀ n, leStore (n % 256 ^ k) k = leStore n k := by
  induction k with
  | zero => intro n; rfl
  | succ k ih =>
    intro n
    have hsplit : (256 : Nat) ^ (k + 1) = 256 * 256 ^ k := by
      rw [pow_succ, mul_comm]
    show (n % 256 ^ (k + 1) % 256) :: leStore (n % 256 ^ (k + 1) / 256) k
        = (n % 256) :: leStore (n / 256) k
    congr 1
    · rw [Nat.mod_mod_of_dvd n (by rw [hsplit]; exact dvd_mul_right 256 (256 ^ k))]
    · rw [hsplit, Nat.mod_mul_right_div_self, ih]

lemma decodeU128_leStore (c : Nat) : decodeU128 (leStore c 16) = some (c % 2 ^ 128) := by
  have hlen : (leStore c 16).length = 16 := leStore_length 16 c
  have htake : (leStore c 16).take 16 = leStore c 16 := by
    rw [← hlen]; exact List.take_length _
  rw [decodeU128, hlen]
  simp only [show ¬ (16 < 16) from by omega, if_false]
  rw [htake, leLoad_leStore]
  norm_num

lemma lookupAssoc_insertAssoc (key v : Bytes) (d : List (Bytes × Bytes)) :
    lookupAssoc key (insertAssoc key v d) = some v := by
  induction d with
  | nil => simp [insertAssoc, lookupAssoc]
  | cons kv rest ih =>
    obtain ⟨k, val⟩ := kv
    by_cases h : k = key <;> simp [insertAssoc, lookupAssoc, h, ih]

lemma addU128_lt (a b : Nat) : addU128 a b < 2 ^ 128 :=
  Nat.mod_lt _ (by norm_num)

/-! ## Execution lemmas -/

/-- Explicit form of `read_counter`: a single logged read of the counter key,
with the result determined by the backend outcome, presence and decoding. -/
lemma read_counter_eq (s : Ext) :
    read_counter s =
      ((match s.readFails counterKey with
        | some e => Except.error (Error.Backend e)
        | none =>
          match lookupAssoc counterKey s.data with
          | none => Except.ok 0
          | some bs =>
            match decodeU128 bs with
            | some v => Except.ok v
            | none => Except.error Error.StateCorruption),
       { s with log := s.log ++ [StoreEvent.read counterKey] }) := by
  unfold read_counter Ext.read_storage
  rcases hrf : s.readFails counterKey with _ | e
  · rcases hlk : lookupAssoc counterKey s.data with _ | bs
    · simp [hrf, hlk]
    · rcases hdec : decodeU128 bs with _ | v <;> simp [hrf, hlk, hdec]
  · simp [hrf]

/-- The in-memory fold of `execute_block` agrees, modulo `2 ^ 128`, with
adding the sum of the `Add` magnitudes. -/
lemma foldl_add_eq_sum (ops : List Extrinsic) : ∀ c,
    ops.foldl (fun acc ex => match ex with | .Add add => addU128 acc add) c % 2 ^ 128
      = (c + (ops.map fun ex => match ex with | .Add a => a).sum) % 2 ^ 128 := by
  induction ops with
  | nil => intro c; simp
  | cons op rest ih =>
    intro c
    obtain ⟨a⟩ := op
    simp only [List.foldl_cons, List.map_cons, List.sum_cons]
    rw [ih (addU128 c a)]
    show ((c + a) % 2 ^ 128 + _) % 2 ^ 128 = _
    rw [Nat.mod_add_mod, Nat.add_assoc]

/-- Full characterization of a successful `execute_block`: given the
difficulty is met, the backend read succeeds, and the current counter reads
as `c`, the call succeeds and performs exactly one read and one write,
storing the folded counter. -/
lemma execute_block_spec (blk : Block) (s : Ext) (c : Nat)
    (hpow : is_all_zero (blk.id.take DIFFICULTY) = true)
    (hrf : s.readFails counterKey = none)
    (hc : match lookupAssoc counterKey s.data with
          | none => c = 0
          | some bs => decodeU128 bs = some c) :
    execute_block blk s =
      (Except.ok (),
       { s with
         data := insertAssoc counterKey
           (leStore ((c + (blk.extrinsics.map fun ex => match ex with | .Add a => a).sum) % 2 ^ 128) 16)
           s.data,
         log := s.log ++ [StoreEvent.read counterKey,
           StoreEvent.write counterKey
             (leStore ((c + (blk.extrinsics.map fun ex => match ex with | .Add a => a).sum) % 2 ^ 128) 16)] }) := by
  have hstore : leStore
      (blk.extrinsics.foldl (fun acc ex => match ex with | .Add add => addU128 acc add) c) 16
      = leStore ((c + (blk.extrinsics.map fun ex => match ex with | .Add a => a).sum) % 2 ^ 128) 16 := by
    have h256 : (256 : Nat) ^ 16 = 2 ^ 128 := by norm_num
    rw [← leStore_mod 16, h256, foldl_add_eq_sum, ← h256, leStore_mod]
  unfold execute_block
  rw [read_counter_eq, hpow]
  rcases hlk : lookupAssoc counterKey s.data with _ | bs
  · rw [hlk] at hc
    have hc0 : c = 0 := hc
    subst hc0
    simp only [hrf, hlk]
    unfold write_counter Ext.write_storage
    rw [hstore]
    simp
  · rw [hlk] at hc
    have hdec : decodeU128 bs = some c := hc
    simp only [hrf, hlk, hdec]
    unfold write_counter Ext.write_storage
    rw [hstore]
    simp

/-- A block missing the difficulty target is rejected before any store
access. -/
lemma execute_block_rejected (blk : Block) (s : Ext)
    (hf : is_all_zero (blk.id.take DIFFICULTY) = false) :
    execute_block blk s = (Except.error Error.DifficultyTooLow, s) := by
  unfold execute_block
  rw [hf]
  simp

/-- On every store, `execute_block` rejects the genesis block with
`DifficultyTooLow` before touching the store. -/
lemma genesis_rejected (s : Ext) :
    execute_block Block.genesis s = (Except.error Error.DifficultyTooLow, s) :=
  execute_block_rejected Block.genesis s powGenesis

/-- Sequential application of a list of operations through `apply_extrinsic`
(the claim's "one at a time"), stopping at the first error. -/
def applySeq (block : UnsealedBlock) (ops : List Extrinsic) (s : Ext) :
    Except Error Unit × UnsealedBlock × Ext :=
  match ops with
  | [] => (.ok (), block, s)
  | op :: rest =>
    match apply_extrinsic block op s with
    | (.ok _, b', s') => applySeq b' rest s'
    | (.error e, b', s') => (.error e, b', s')

/-- Full characterization of a successful `apply_extrinsic`: one read, one
write, the counter advanced by `a` with wrapping, the block untouched. -/
lemma apply_extrinsic_spec (b : UnsealedBlock) (a : Nat) (s : Ext) (c : Nat)
    (hrf : s.readFails counterKey = none)
    (hc : match lookupAssoc counterKey s.data with
          | none => c = 0
          | some bs => decodeU128 bs = some c) :
    apply_extrinsic b (.Add a) s =
      (Except.ok (), b,
       { s with
         data := insertAssoc counterKey (leStore (addU128 c a) 16) s.data,
         log := s.log ++ [StoreEvent.read counterKey,
           StoreEvent.write counterKey (leStore (addU128 c a) 16)] }) := by
  unfold apply_extrinsic
  rw [read_counter_eq]
  rcases hlk : lookupAssoc counterKey s.data with _ | bs
  · rw [hlk] at hc
    have hc0 : c = 0 := hc
    subst hc0
    simp only [hrf, hlk]
    unfold write_counter Ext.write_storage
    simp
  · rw [hlk] at hc
    have hdec : decodeU128 bs = some c := hc
    simp only [hrf, hlk, hdec]
    unfold write_counter Ext.write_storage
    simp

/-- Running `applySeq` from a readable store with counter value `c` succeeds,
preserves the backend behavior, and leaves the counter at `c` plus the sum of
the magnitudes (wrapping), written exactly as the executor would write it. -/
lemma applySeq_spec (ops : List Extrinsic) : ∀ (b : UnsealedBlock) (s : Ext) (c : Nat),
    s.readFails counterKey = none →
    (match lookupAssoc counterKey s.data with
     | none => c = 0
     | some bs => decodeU128 bs = some c) →
    c < 2 ^ 128 →
    (applySeq b ops s).1 = Except.ok () ∧
    (applySeq b ops s).2.2.readFails = s.readFails ∧
    (ops = [] ∧ (applySeq b ops s).2.2.data = s.data ∨
      lookupAssoc counterKey (applySeq b ops s).2.2.data =
        some (leStore ((c + (ops.map fun ex => match ex with | .Add a => a).sum) % 2 ^ 128) 16)) := by
  induction ops with
  | nil =>
    intro b s c hrf hc hlt
    exact ⟨rfl, rfl, Or.inl ⟨rfl, rfl⟩⟩
  | cons op rest ih =>
    intro b s c hrf hc hlt
    obtain ⟨a⟩ := op
    have hstep := apply_extrinsic_spec b a s c hrf hc
    have happ : applySeq b (Extrinsic.Add a :: rest) s =
        applySeq b rest
          { s with
            data := insertAssoc counterKey (leStore (addU128 c a) 16) s.data,
            log := s.log ++ [StoreEvent.read counterKey,
              StoreEvent.write counterKey (leStore (addU128 c a) 16)] } := by
      simp only [applySeq]
      rw [hstep]
    set s1 : Ext :=
      { s with
        data := insertAssoc counterKey (leStore (addU128 c a) 16) s.data,
        log := s.log ++ [StoreEvent.read counterKey,
          StoreEvent.write counterKey (leStore (addU128 c a) 16)] } with hs1
    have hrf1 : s1.readFails counterKey = none := hrf
    have hc1 : match lookupAssoc counterKey s1.data with
        | none => addU128 c a = 0
        | some bs => decodeU128 bs = some (addU128 c a) := by
      rw [hs1]
      simp only [lookupAssoc_insertAssoc]
      rw [decodeU128_leStore, Nat.mod_eq_of_lt (addU128_lt c a)]
    obtain ⟨h1, h2, h3⟩ := ih b s1 (addU128 c a) hrf1 hc1 (addU128_lt c a)
    refine ⟨by rw [happ]; exact h1, by rw [happ]; exact h2, Or.inr ?_⟩
    rw [happ]
    have hval : (addU128 c a +
        (rest.map fun ex => match ex with | .Add a => a).sum) % 2 ^ 128 =
        (c + ((Extrinsic.Add a :: rest).map fun ex => match ex with | .Add a => a).sum) % 2 ^ 128 := by
      simp only [List.map_cons, List.sum_cons, addU128]
      rw [Nat.mod_add_mod, Nat.add_assoc]
    rcases h3 with ⟨hrest, hdata⟩ | hlook
    · subst hrest
      rw [hdata, hs1]
      simp only [lookupAssoc_insertAssoc]
      rw [← hval]
      simp only [List.map_nil, List.sum_nil, Nat.add_zero]
      rw [Nat.mod_eq_of_lt (addU128_lt c a)]
    · rw [hlook, hval]

/-! ## Claims -/

/-- C1: for any `UnsealedBlock` whose nonce search terminates — a nonce
meeting the difficulty target exists, supplied as the hypothesis, which is
exactly the termination condition of the unbounded loop — `seal` returns a
`Block` with the same `parent_hash` and `extrinsics`, whose identity hash
has its first `DIFFICULTY = 2` bytes zero, and whose nonce is the smallest
value satisfying that condition: the result of starting at `nonce = 0` and
incrementing by 1. -/
theorem seal_correct (b : UnsealedBlock) (h : ∃ n, sealDone b n) :
    (b.seal h).parent_hash = b.parent_hash ∧
    (b.seal h).extrinsics = b.extrinsics ∧
    is_all_zero ((b.seal h).id.take DIFFICULTY) = true ∧
    (∀ n, sealDone b n → (b.seal h).nonce ≤ n) ∧
    (∀ m, m < (b.seal h).nonce → ¬ sealDone b m) := by
  refine ⟨rfl, rfl, Nat.find_spec h, ?_, ?_⟩
  · intro n hn
    exact Nat.find_min' h hn
  · intro m hm
    exact Nat.find_min h hm

/-- C1 witness: `unsealedA` seals at nonce 0 with its fields preserved. -/
theorem seal_correct_witness :
    (unsealedA.seal ⟨0, sealDoneA⟩).parent_hash = unsealedA.parent_hash ∧
    (unsealedA.seal ⟨0, sealDoneA⟩).extrinsics = unsealedA.extrinsics ∧
    (unsealedA.seal ⟨0, sealDoneA⟩).nonce = 0 := by
  obtain ⟨h1, h2, _, hmin, _⟩ := seal_correct unsealedA ⟨0, sealDoneA⟩
  exact ⟨h1, h2, Nat.le_zero.mp (hmin 0 sealDoneA)⟩

/-- C2: `execute_block` returns `DifficultyTooLow` exactly when the first
`DIFFICULTY = 2` bytes of the block's identity hash are not all zero, and in
that case the store — data, backend behavior and event log alike — is
completely untouched: the check precedes any store read or write. -/
theorem execute_block_difficulty (blk : Block) (s : Ext) :
    ((execute_block blk s).1 = Except.error Error.DifficultyTooLow ↔
      is_all_zero (blk.id.take DIFFICULTY) = false) ∧
    (is_all_zero (blk.id.take DIFFICULTY) = false → (execute_block blk s).2 = s) := by
  by_cases hpow : is_all_zero (blk.id.take DIFFICULTY) = true
  · have hne : (execute_block blk s).1 ≠ Except.error Error.DifficultyTooLow := by
      unfold execute_block
      rw [read_counter_eq, hpow]
      rcases hrf : s.readFails counterKey with _ | e
      · rcases hlk : lookupAssoc counterKey s.data with _ | bs
        · simp
        · rcases hdec : decodeU128 bs with _ | v <;> simp [hdec]
      · simp
    refine ⟨⟨fun hres => absurd hres hne, fun hfalse => ?_⟩, fun hfalse => ?_⟩ <;>
      rw [hpow] at hfalse <;> cases hfalse
  · have hf : is_all_zero (blk.id.take DIFFICULTY) = false := by
      simpa using hpow
    rw [execute_block_rejected blk s hf]
    simp [hf]

/-- C2 witness: the genesis block misses the target and is rejected with the
store untouched. -/
theorem execute_block_difficulty_witness :
    is_all_zero (Block.genesis.id.take DIFFICULTY) = false ∧
    (execute_block Block.genesis extEmpty).1 = Except.error Error.DifficultyTooLow ∧
    (execute_block Block.genesis extEmpty).2 = extEmpty :=
  ⟨powGenesis,
   (execute_block_difficulty Block.genesis extEmpty).1.mpr powGenesis,
   (execute_block_difficulty Block.genesis extEmpty).2 powGenesis⟩

/-- C4: whenever `execute_block` returns an error of any kind, the store
data is unchanged and no write event is logged — at most the single read of
the counter key appears. -/
theorem execute_block_error_frame (blk : Block) (s : Ext) (e : Error)
    (h : (execute_block blk s).1 = Except.error e) :
    (execute_block blk s).2.data = s.data ∧
    ((execute_block blk s).2.log = s.log ∨
      (execute_block blk s).2.log = s.log ++ [StoreEvent.read counterKey]) := by
  by_cases hpow : is_all_zero (blk.id.take DIFFICULTY) = true
  · unfold execute_block
    rw [read_counter_eq, hpow]
    rcases hrf : s.readFails counterKey with _ | er
    · rcases hlk : lookupAssoc counterKey s.data with _ | bs
      · exfalso
        unfold execute_block at h
        rw [read_counter_eq, hpow] at h
        simp [hrf, hlk] at h
      · rcases hdec : decodeU128 bs with _ | v
        · simp [hrf, hlk, hdec]
        · exfalso
          unfold execute_block at h
          rw [read_counter_eq, hpow] at h
          simp [hrf, hlk, hdec] at h
    · simp [hrf]
  · have hf : is_all_zero (blk.id.take DIFFICULTY) = false := by
      simpa using hpow
    rw [execute_block_rejected blk s hf]
    simp

/-- C4 witness: the rejected genesis block leaves the empty store's data
unchanged. -/
theorem execute_block_error_frame_witness :
    (execute_block Block.genesis extEmpty).1 = Except.error Error.DifficultyTooLow ∧
    (execute_block Block.genesis extEmpty).2.data = extEmpty.data := by
  have h : (execute_block Block.genesis extEmpty).1 = Except.error Error.DifficultyTooLow := by
    rw [genesis_rejected]
  exact ⟨h, (execute_block_error_frame Block.genesis extEmpty Error.DifficultyTooLow h).1⟩

/-- C6: `apply_extrinsic` mutates only the store: the building block comes
back exactly as it went in — `parent_hash` and `extrinsics` included, the
applied operation not appended. -/
theorem apply_extrinsic_block_frame (b : UnsealedBlock) (op : Extrinsic) (s : Ext) :
    (apply_extrinsic b op s).2.1 = b ∧
    (apply_extrinsic b op s).2.1.parent_hash = b.parent_hash ∧
    (apply_extrinsic b op s).2.1.extrinsics = b.extrinsics := by
  have h : (apply_extrinsic b op s).2.1 = b := by
    rcases hr : read_counter s with ⟨r | c, s'⟩ <;> simp [apply_extrinsic, hr]
  exact ⟨h, by rw [h], by rw [h]⟩

/-- C10: the difficulty check applies uniformly, genesis included: the
genesis block's identity hash does not begin with two zero bytes, so
`execute_block` applied to it returns `DifficultyTooLow` and leaves every
store unchanged. -/
theorem genesis_uniformly_rejected (s : Ext) :
    is_all_zero (Block.genesis.id.take DIFFICULTY) = false ∧
    (execute_block Block.genesis s).1 = Except.error Error.DifficultyTooLow ∧
    (execute_block Block.genesis s).2 = s := by
  refine ⟨powGenesis, ?_, ?_⟩ <;> rw [genesis_rejected]

/-- C3: for a block passing the proof-of-work check and a store whose
counter entry is absent (read as 0) or decodes to `c`, `execute_block`
succeeds and writes back `c` plus the sum of the magnitudes of the block's
`Add` operations, with wrapping 128-bit addition; in particular
`[Add 3, Add 5]` executed from the empty store leaves 8, and executing the
same block again from a store holding 8 leaves 16 — not idempotent. -/
theorem execute_block_fold_sum :
    (∀ (blk : Block) (s : Ext) (c : Nat),
      is_all_zero (blk.id.take DIFFICULTY) = true →
      s.readFails counterKey = none →
      (match lookupAssoc counterKey s.data with
       | none => c = 0
       | some bs => decodeU128 bs = some c) →
      (execute_block blk s).1 = Except.ok () ∧
      lookupAssoc counterKey (execute_block blk s).2.data =
        some (leStore
          ((c + (blk.extrinsics.map fun ex => match ex with | .Add a => a).sum) % 2 ^ 128) 16)) ∧
    lookupAssoc counterKey (execute_block blockB extEmpty).2.data = some (leStore 8 16) ∧
    lookupAssoc counterKey
        (execute_block blockB { extEmpty with data := [(counterKey, leStore 8 16)] }).2.data =
      some (leStore 16 16) := by
  have hgen : ∀ (blk : Block) (s : Ext) (c : Nat),
      is_all_zero (blk.id.take DIFFICULTY) = true →
      s.readFails counterKey = none →
      (match lookupAssoc counterKey s.data with
       | none => c = 0
       | some bs => decodeU128 bs = some c) →
      (execute_block blk s).1 = Except.ok () ∧
      lookupAssoc counterKey (execute_block blk s).2.data =
        some (leStore
          ((c + (blk.extrinsics.map fun ex => match ex with | .Add a => a).sum) % 2 ^ 128) 16) := by
    intro blk s c hpow hrf hc
    rw [execute_block_spec blk s c hpow hrf hc]
    exact ⟨rfl, lookupAssoc_insertAssoc _ _ _⟩
  refine ⟨hgen, ?_, ?_⟩
  · have h := (hgen blockB extEmpty 0 powB rfl (by rfl)).2
    rw [h]
    norm_num [blockB]
  · have hc : match lookupAssoc counterKey
        ({ extEmpty with data := [(counterKey, leStore 8 16)] } : Ext).data with
        | none => 8 = 0
        | some bs => decodeU128 bs = some 8 := by
      have hlk : lookupAssoc counterKey
          ({ extEmpty with data := [(counterKey, leStore 8 16)] } : Ext).data
          = some (leStore 8 16) := by
        simp [extEmpty, lookupAssoc]
      rw [hlk]
      show decodeU128 (leStore 8 16) = some 8
      rw [decodeU128_leStore]
      norm_num
    have h := (hgen blockB { extEmpty with data := [(counterKey, leStore 8 16)] } 8 powB rfl hc).2
    rw [h]
    norm_num [blockB]

/-- C3 witness: `blockB` meets the target, and executing it on the empty
store succeeds. -/
theorem execute_block_fold_sum_witness :
    is_all_zero (blockB.id.take DIFFICULTY) = true ∧
    (execute_block blockB extEmpty).1 = Except.ok () :=
  ⟨powB, (execute_block_fold_sum.1 blockB extEmpty 0 powB rfl (by rfl)).1⟩

/-- C5: applying the operations of a PoW-valid block one at a time through
`apply_extrinsic` and replaying the block through `execute_block` from the
same store both succeed and agree on the resulting counter value as read
back by `read_counter` — same key, same encoding, same wrapping fold. -/
theorem builder_executor_agree (blk : Block) (b : UnsealedBlock) (s : Ext) (c : Nat)
    (hpow : is_all_zero (blk.id.take DIFFICULTY) = true)
    (hrf : s.readFails counterKey = none)
    (hc : match lookupAssoc counterKey s.data with
          | none => c = 0
          | some bs => decodeU128 bs = some c)
    (hlt : c < 2 ^ 128) :
    (applySeq b blk.extrinsics s).1 = Except.ok () ∧
    (execute_block blk s).1 = Except.ok () ∧
    (read_counter (applySeq b blk.extrinsics s).2.2).1 =
      (read_counter (execute_block blk s).2).1 := by
  obtain ⟨h1, h2, h3⟩ := applySeq_spec blk.extrinsics b s c hrf hc hlt
  have hexec := execute_block_spec blk s c hpow hrf hc
  have hreadE : (read_counter (execute_block blk s).2).1 =
      Except.ok ((c + (blk.extrinsics.map fun ex => match ex with | .Add a => a).sum) % 2 ^ 128) := by
    rw [hexec, read_counter_eq]
    simp only [hrf, lookupAssoc_insertAssoc, decodeU128_leStore,
      Nat.mod_mod_of_dvd _ (dvd_refl (2 ^ 128))]
  have hreadA : (read_counter (applySeq b blk.extrinsics s).2.2).1 =
      Except.ok ((c + (blk.extrinsics.map fun ex => match ex with | .Add a => a).sum) % 2 ^ 128) := by
    rcases h3 with ⟨hnil, hdata⟩ | hlook
    · rw [hnil]
      show (read_counter s).1 = _
      rw [read_counter_eq]
      simp only [List.map_nil, List.sum_nil, Nat.add_zero, Nat.mod_eq_of_lt hlt, hrf]
      rcases hlk : lookupAssoc counterKey s.data with _ | bs
      · rw [hlk] at hc
        have hc0 : c = 0 := hc
        simp only [hlk, hc0]
      · rw [hlk] at hc
        have hdec : decodeU128 bs = some c := hc
        simp only [hlk, hdec]
    · rw [read_counter_eq]
      simp only [h2, hrf, hlook, decodeU128_leStore,
        Nat.mod_mod_of_dvd _ (dvd_refl (2 ^ 128))]
  exact ⟨h1, by rw [hexec], by rw [hreadA, hreadE]⟩

/-- C5 witness: operations `[Add 3, Add 5]` applied one at a time to the empty store
and `blockB` replayed by the executor read back the same counter. -/
theorem builder_executor_agree_witness :
    is_all_zero (blockB.id.take DIFFICULTY) = true ∧
    (applySeq unsealedA blockB.extrinsics extEmpty).1 = Except.ok () ∧
    (read_counter (applySeq unsealedA blockB.extrinsics extEmpty).2.2).1 =
      (read_counter (execute_block blockB extEmpty).2).1 := by
  obtain ⟨h1, _, h3⟩ :=
    builder_executor_agree blockB unsealedA extEmpty 0 powB rfl (by rfl) (by norm_num)
  exact ⟨powB, h1, h3⟩

/-- C7 counterexample: with the counter entry `[1, 2, 3]` — which does not
decode as a `u128` — `execute_block` on the genesis block returns
`DifficultyTooLow`, not `StateCorruption`: as stated, with the block
universally quantified, the claim fails for blocks missing the difficulty
target, where the proof-of-work check fires first. -/
theorem state_corruption_counterexample :
    lookupAssoc counterKey corruptExt.data = some [1, 2, 3] ∧
    decodeU128 [1, 2, 3] = none ∧
    (execute_block Block.genesis corruptExt).1 = Except.error Error.DifficultyTooLow ∧
    (execute_block Block.genesis corruptExt).1 ≠ Except.error Error.StateCorruption := by
  refine ⟨by simp [corruptExt, extEmpty, lookupAssoc], by rfl, ?_, ?_⟩
  · rw [genesis_rejected]
  · rw [genesis_rejected]
    simp

/-- C7 amended: if the backend read succeeds and the stored counter bytes do
not decode as a `u128`, then `execute_block` — for a block passing the
proof-of-work check, which is tested first — and `apply_extrinsic` return
`StateCorruption` and write nothing to the store. -/
theorem state_corruption_no_write (blk : Block) (b : UnsealedBlock) (op : Extrinsic)
    (s : Ext) (bs : Bytes)
    (hrf : s.readFails counterKey = none)
    (hbs : lookupAssoc counterKey s.data = some bs)
    (hdec : decodeU128 bs = none)
    (hpow : is_all_zero (blk.id.take DIFFICULTY) = true) :
    (execute_block blk s).1 = Except.error Error.StateCorruption ∧
    (execute_block blk s).2.data = s.data ∧
    (apply_extrinsic b op s).1 = Except.error Error.StateCorruption ∧
    (apply_extrinsic b op s).2.2.data = s.data := by
  have he : execute_block blk s =
      (Except.error Error.StateCorruption,
       { s with log := s.log ++ [StoreEvent.read counterKey] }) := by
    unfold execute_block
    rw [read_counter_eq, hpow]
    simp [hrf, hbs, hdec]
  have ha : apply_extrinsic b op s =
      (Except.error Error.StateCorruption, b,
       { s with log := s.log ++ [StoreEvent.read counterKey] }) := by
    unfold apply_extrinsic
    rw [read_counter_eq]
    simp [hrf, hbs, hdec]
  rw [he, ha]
  exact ⟨rfl, rfl, rfl, rfl⟩

/-- C7 witness: the undecodable entry `[1, 2, 3]` makes both the executor
(on `blockB`) and the builder fail with `StateCorruption`. -/
theorem state_corruption_no_write_witness :
    (execute_block blockB corruptExt).1 = Except.error Error.StateCorruption ∧
    (apply_extrinsic unsealedA (.Add 1) corruptExt).1 = Except.error Error.StateCorruption := by
  have h := state_corruption_no_write blockB unsealedA (.Add 1) corruptExt [1, 2, 3]
    rfl (by simp [corruptExt, extEmpty, lookupAssoc]) (by rfl) powB
  exact ⟨h.1, h.2.2.1⟩

/-- C8: every successful `execute_block` performs exactly one store read and
one store write — its event log grows by exactly one read of the counter key
followed by one write to it — however many operations the block carries. -/
theorem execute_block_one_read_one_write (blk : Block) (s : Ext)
    (h : (execute_block blk s).1 = Except.ok ()) :
    ∃ v, (execute_block blk s).2.log =
      s.log ++ [StoreEvent.read counterKey, StoreEvent.write counterKey v] := by
  by_cases hpow : is_all_zero (blk.id.take DIFFICULTY) = true
  · rcases hrf : s.readFails counterKey with _ | er
    · rcases hlk : lookupAssoc counterKey s.data with _ | bs
      · have hspec := execute_block_spec blk s 0 hpow hrf (by rw [hlk])
        exact ⟨_, by rw [hspec]⟩
      · rcases hdec : decodeU128 bs with _ | v
        · exfalso
          unfold execute_block at h
          rw [read_counter_eq, hpow] at h
          simp [hrf, hlk, hdec] at h
        · have hspec := execute_block_spec blk s v hpow hrf (by rw [hlk]; exact hdec)
          exact ⟨_, by rw [hspec]⟩
    · exfalso
      unfold execute_block at h
      rw [read_counter_eq, hpow] at h
      simp [hrf] at h
  · exfalso
    have hf : is_all_zero (blk.id.take DIFFICULTY) = false := by
      simpa using hpow
    rw [execute_block_rejected blk s hf] at h
    cases h

/-- C8 witness: `blockB` on the empty store succeeds with exactly one read
and one write logged. -/
theorem execute_block_one_read_one_write_witness :
    (execute_block blockB extEmpty).1 = Except.ok () ∧
    ∃ v, (execute_block blockB extEmpty).2.log =
      extEmpty.log ++ [StoreEvent.read counterKey, StoreEvent.write counterKey v] := by
  have hok : (execute_block blockB extEmpty).1 = Except.ok () := by
    rw [execute_block_spec blockB extEmpty 0 powB rfl (by rfl)]
  exact ⟨hok, execute_block_one_read_one_write blockB extEmpty hok⟩

/-- C9: a failure reported by the store on the read of the counter key is
wrapped as `Backend` carrying the underlying cause and surfaced by both the
executor (on a block passing the difficulty check, so the read is reached)
and the builder; in the modelled interface `write_storage` is infallible, so
no write failure exists to surface — no store failure is ignored. -/
theorem backend_error_surfaced (blk : Block) (b : UnsealedBlock) (op : Extrinsic)
    (s : Ext) (e : String)
    (hfail : s.readFails counterKey = some e)
    (hpow : is_all_zero (blk.id.take DIFFICULTY) = true) :
    (execute_block blk s).1 = Except.error (Error.Backend e) ∧
    (apply_extrinsic b op s).1 = Except.error (Error.Backend e) := by
  constructor
  · unfold execute_block
    rw [read_counter_eq, hpow]
    simp [hfail]
  · unfold apply_extrinsic
    rw [read_counter_eq]
    simp [hfail]

/-- C9 witness: a store failing reads of the counter key makes both paths
report `Backend "backend failure"`. -/
theorem backend_error_surfaced_witness :
    failExt.readFails counterKey = some "backend failure" ∧
    (execute_block blockB failExt).1 = Except.error (Error.Backend "backend failure") ∧
    (apply_extrinsic unsealedA (.Add 1) failExt).1 =
      Except.error (Error.Backend "backend failure") := by
  have hfail : failExt.readFails counterKey = some "backend failure" := by
    simp [failExt, extEmpty]
  have h := backend_error_surfaced blockB unsealedA (.Add 1) failExt "backend failure" hfail powB
  exact ⟨hfail, h.1, h.2⟩

end CounterRuntime
